import Mathlib

/-!
Shallow embedding of the `numsys` radix-conversion library (`src/lib.rs`)
and verification of its specification.

Modelling conventions:
* Rust `char` is Lean `Char`; a `&str` / `String` is its list of chars
  (`List Char`).  Rust `str::len`, which counts UTF-8 *bytes*, is modelled
  by `strLen` (the sum of the chars' UTF-8 sizes).
* Rust `usize` is `Nat`; the claims under study do not depend on
  fixed-width overflow, which the spec leaves host-defined.
* `Result<T, NewError>` is `Except NewError T`.  The `unreachable!()`
  panic inside `dec2seq`'s loop is modelled by an outer `Option`:
  `none` means the panic branch was reached, `some r` a normal return.
* The `while decimal != 0` loop of `dec2seq` is written with explicit
  fuel; `dec2seqLoopF_eq_digits` shows fuel `decimal` always suffices on
  the (base ≥ 2) path the Rust code runs it on.
* The `HashMap` built from the alphabet maps each symbol to its unique
  position, and construction fails at the first element already
  inserted; this is `firstDup` plus an `indexOf`-based lookup.
-/

namespace Numsys

/-- The chars `'0'..='9'`, as built by the `DIGITS` lazy static:
`(b'0'..b'9'+1).map(|x| x as char)`. -/
def DIGITS : List Char := (List.range 10).map (fun i => Char.ofNat (48 + i))

/-- The chars `'A'..='Z'`, as built by the `UPPER_AZ` lazy static:
`(b'A'..b'Z'+1).map(|x| x as char)`. -/
def UPPER_AZ : List Char := (List.range 26).map (fun i => Char.ofNat (65 + i))

/-- The canonical alphabet `DIGITS_UPPER_AZ`: digits then upper letters. -/
def DIGITS_UPPER_AZ : List Char := DIGITS ++ UPPER_AZ

/-- `D_UAZ_LEN`: length of the canonical alphabet. -/
def D_UAZ_LEN : Nat := DIGITS_UPPER_AZ.length

/-- The `NewError` enum of `src/lib.rs`. -/
inductive NewError where
  | BaseTooSmall (text : String)
  | BaseTooBig (text : String)
  | DictEmpty
  | MultipleChar (text : String)
  | MissingChar (text : String)
deriving DecidableEq

deriving instance DecidableEq for Except

/-- A single-quote character, used by Rust's `Debug` rendering of chars. -/
def squote : String := String.singleton (Char.ofNat 39)

/-- A double-quote character. -/
def dquote : String := String.singleton (Char.ofNat 34)

/-- Models `char::escape_debug`, which Rust's `{:?}` formatting applies to
the contents of a char: quotes, backslash and the common control chars get
a backslash escape, other control chars a `\u` escape, and printable chars
stand for themselves. -/
def charEscapeDebug (c : Char) : String :=
  if c.toNat = 39 then "\\" ++ squote
  else if c.toNat = 34 then "\\" ++ dquote
  else if c = '\\' then "\\\\"
  else if c = '\n' then "\\n"
  else if c = '\r' then "\\r"
  else if c = '\t' then "\\t"
  else if c.toNat = 0 then "\\0"
  else if c.toNat < 32 ∨ c.toNat = 127 then
    "\\u\x7b" ++ (Nat.toDigits 16 c.toNat).asString ++ "\x7d"
  else String.singleton c

/-- Rust `{:?}` of a `char`: the escaped char between single quotes. -/
def charDebug (c : Char) : String := squote ++ charEscapeDebug c ++ squote

/-- Rust `{:?}` of a `&[char]` slice: `['A', 'B']` style. -/
def sliceDebug (cs : List Char) : String :=
  "[" ++ String.intercalate ", " (cs.map charDebug) ++ "]"

/-- The `BaseTooSmall` message: `format!("Base MUST be 2 or higer, given {}", base)`
(the typo `higer` is the source's). -/
def baseTooSmallMsg (base : Nat) : String :=
  "Base MUST be 2 or higer, given " ++ toString base

/-- The `BaseTooBig` message:
`format!("Base MUST be at most {}, given {}", *D_UAZ_LEN, base)`. -/
def baseTooBigMsg (base : Nat) : String :=
  "Base MUST be at most " ++ toString D_UAZ_LEN ++ ", given " ++ toString base

/-- The `MultipleChar` message:
`format!("Chars MUST be unique, duplicated: {:?} in {:?}", elem, char2val)`. -/
def multipleCharMsg (c : Char) (char2val : List Char) : String :=
  "Chars MUST be unique, duplicated: " ++ charDebug c ++ " in " ++ sliceDebug char2val

/-- The `MissingChar` message:
`format!("Char {:?} not found in: {:?}", glyph, char2val)`. -/
def missingCharMsg (c : Char) (char2val : List Char) : String :=
  "Char " ++ charDebug c ++ " not found in: " ++ sliceDebug char2val

/-- Rust `str::len`: the length of a string in UTF-8 *bytes* (not chars). -/
def strLen (s : List Char) : Nat := (s.map Char.utf8Size).sum

/-- The duplicate scan performed while building `_char2val` in `seq2dec`:
elements are inserted left to right, and the first element that was already
present (`hm.insert(..).is_some()`) is reported.  `seen` holds the symbols
inserted so far. -/
def firstDup (seen : List Char) : List Char → Option Char
  | [] => none
  | c :: cs => if c ∈ seen then some c else firstDup (c :: seen) cs

/-- Lookup in the `_char2val` map of `seq2dec`.  When `char2val` has no
duplicates (the only case in which the map survives construction) the map
sends each symbol to its position, so the lookup is `indexOf` guarded by
membership. -/
def mapLookup (char2val : List Char) (g : Char) : Option Nat :=
  if g ∈ char2val then some (char2val.indexOf g) else none

/-- The accumulation loop of `seq2dec`:
`for (idx, glyph) in sequence.chars().rev().enumerate() { dec += value * from_base.pow(idx) }`,
run here on the already-reversed sequence. -/
def seq2decLoop (char2val : List Char) : Nat → Nat → List Char → Except NewError Nat
  | dec, _, [] => Except.ok dec
  | dec, idx, glyph :: rest =>
    match mapLookup char2val glyph with
    | none => Except.error (NewError.MissingChar (missingCharMsg glyph char2val))
    | some value =>
      seq2decLoop char2val (dec + value * char2val.length ^ idx) (idx + 1) rest

/-- `seq2dec` from `src/lib.rs`: converts `sequence` to a decimal using
`char2val` as the digit alphabet. -/
def seq2dec (sequence : List Char) (char2val : List Char) : Except NewError Nat :=
  let from_base := char2val.length
  if from_base = 0 then Except.error NewError.DictEmpty
  else
    let single_char_sequence := sequence.dedup.length = 1
    if from_base = 1 ∧ single_char_sequence then Except.ok (strLen sequence)
    else
      match firstDup [] char2val with
      | some c => Except.error (NewError.MultipleChar (multipleCharMsg c char2val))
      | none => seq2decLoop char2val 0 0 sequence.reverse

/-- The `while decimal != 0` loop of `dec2seq`, with explicit fuel.  Each
round prepends `char2val[decimal % base]` to the sequence and divides
`decimal` by the base; a failed lookup is the `unreachable!()` branch,
modelled (like fuel exhaustion) as `none`. -/
def dec2seqLoopF (char2val : List Char) : Nat → Nat → Option (List Char)
  | _, 0 => some []
  | 0, _ + 1 => none
  | fuel + 1, d + 1 =>
    match char2val.get? ((d + 1) % char2val.length) with
    | none => none
    | some glyph =>
      (dec2seqLoopF char2val fuel ((d + 1) / char2val.length)).map (· ++ [glyph])

/-- `dec2seq` from `src/lib.rs`: converts `decimal` to a sequence over the
alphabet `char2val`.  The outer `Option` models the `unreachable!()`
panic: `none` never occurs (see `dec2seqLoopF_eq_digits`). -/
def dec2seq (decimal : Nat) (char2val : List Char) : Option (Except NewError (List Char)) :=
  let base := char2val.length
  if base = 0 then some (Except.error NewError.DictEmpty)
  else if base = 1 then
    some (Except.ok (List.replicate decimal (char2val.getD 0 ' ')))
  else
    (dec2seqLoopF char2val decimal decimal).map Except.ok

/-- Digit value `v` rendered as Rust's integer formatting renders it:
`'0'..'9'` for `v < 10`, then uppercase letters (`{:X}` style). -/
def hexUpperDigitChar (v : Nat) : Char :=
  if v < 10 then Char.ofNat (48 + v) else Char.ofNat (55 + v)

/-- Little-endian digit extraction with fuel, the digit-level skeleton of
host formatting and of `dec2seqLoopF`. -/
def natDigitsRevF (radix : Nat) : Nat → Nat → List Nat
  | _, 0 => []
  | 0, _ + 1 => []
  | fuel + 1, d + 1 => ((d + 1) % radix) :: natDigitsRevF radix fuel ((d + 1) / radix)

/-- Models Rust's host-native integer formatting used on the fast paths of
`switch_dec_base`: `format!("{:b}", n)`, `{:o}`, `{}` and `{:X}` are this
function at radix 2, 8, 10 and 16 (most-significant digit first, `"0"` for
zero, uppercase hex letters). -/
def rustFormatRadix (radix : Nat) (n : Nat) : List Char :=
  if n = 0 then ['0']
  else (natDigitsRevF radix n n).reverse.map hexUpperDigitChar

/-- `switch_dec_base` from `src/lib.rs`.  The `match base` on the literals
2, 8, 10, 16 is written as an if-chain; the default arm delegates to
`dec2seq` on the first `base` symbols of the canonical alphabet. -/
def switch_dec_base (decimal : Nat) (base : Nat) : Option (Except NewError (List Char)) :=
  if base < 2 then
    some (Except.error (NewError.BaseTooSmall (baseTooSmallMsg base)))
  else if base > D_UAZ_LEN then
    some (Except.error (NewError.BaseTooBig (baseTooBigMsg base)))
  else if decimal = 0 then
    some (Except.ok ['0'])
  else if base = 2 then some (Except.ok (rustFormatRadix 2 decimal))
  else if base = 8 then some (Except.ok (rustFormatRadix 8 decimal))
  else if base = 10 then some (Except.ok (rustFormatRadix 10 decimal))
  else if base = 16 then some (Except.ok (rustFormatRadix 16 decimal))
  else dec2seq decimal (DIGITS_UPPER_AZ.take base)

/-! ### Digit-loop lemmas -/

lemma natDigitsRevF_eq_digits (radix : Nat) (h : 2 ≤ radix) :
    ∀ fuel d, d ≤ fuel → natDigitsRevF radix fuel d = Nat.digits radix d := by
  intro fuel
  induction fuel with
  | zero =>
    intro d hd
    have : d = 0 := Nat.le_zero.mp hd
    subst this
    simp [natDigitsRevF]
  | succ fuel ih =>
    intro d hd
    match d with
    | 0 => simp [natDigitsRevF]
    | d + 1 =>
      have hdiv : (d + 1) / radix < d + 1 :=
        Nat.div_lt_self (Nat.succ_pos d) (by omega)
      rw [show natDigitsRevF radix (fuel + 1) (d + 1) =
            ((d + 1) % radix) :: natDigitsRevF radix fuel ((d + 1) / radix) from rfl,
        ih ((d + 1) / radix) (by omega),
        Nat.digits_def' (show 1 < radix by omega) (Nat.succ_pos d)]

lemma dec2seqLoopF_eq_digits (al : List Char) (h : 2 ≤ al.length) :
    ∀ fuel d, d ≤ fuel →
      dec2seqLoopF al fuel d =
        some ((Nat.digits al.length d).reverse.map (fun v => al.getD v ' ')) := by
  intro fuel
  induction fuel with
  | zero =>
    intro d hd
    have : d = 0 := Nat.le_zero.mp hd
    subst this
    simp [dec2seqLoopF]
  | succ fuel ih =>
    intro d hd
    match d with
    | 0 => simp [dec2seqLoopF]
    | d + 1 =>
      have hlt : (d + 1) % al.length < al.length := Nat.mod_lt _ (by omega)
      have hdiv : (d + 1) / al.length < d + 1 :=
        Nat.div_lt_self (Nat.succ_pos d) (by omega)
      have hget : al.get? ((d + 1) % al.length) = some (al.get ⟨(d + 1) % al.length, hlt⟩) :=
        List.get?_eq_get hlt
      rw [show dec2seqLoopF al (fuel + 1) (d + 1) =
            (match al.get? ((d + 1) % al.length) with
             | none => none
             | some glyph =>
               (dec2seqLoopF al fuel ((d + 1) / al.length)).map (· ++ [glyph])) from rfl,
        hget]
      simp only [ih ((d + 1) / al.length) (by omega), Option.map_some]
      rw [Nat.digits_def' (show 1 < al.length by omega) (Nat.succ_pos d)]
      simp [List.getD, List.get?_eq_get hlt, List.getElem?_eq_getElem hlt]

lemma dec2seq_two_le (al : List Char) (h : 2 ≤ al.length) (d : Nat) :
    dec2seq d al =
      some (Except.ok ((Nat.digits al.length d).reverse.map (fun v => al.getD v ' '))) := by
  simp only [dec2seq]
  rw [if_neg (by omega), if_neg (by omega), dec2seqLoopF_eq_digits al h d d le_rfl]
  rfl

lemma dec2seq_one (al : List Char) (h : al.length = 1) (d : Nat) :
    dec2seq d al = some (Except.ok (List.replicate d (al.getD 0 ' '))) := by
  simp only [dec2seq]
  rw [if_neg (by omega), if_pos h]

/-! ### Decode-loop lemmas -/

lemma seq2decLoop_ok (al : List Char) :
    ∀ (gs : List Char) (dec idx : Nat), (∀ g ∈ gs, g ∈ al) →
      seq2decLoop al dec idx gs =
        Except.ok
          (dec + Nat.ofDigits al.length (gs.map (fun g => al.indexOf g)) * al.length ^ idx) := by
  intro gs
  induction gs with
  | nil =>
    intro dec idx _
    simp [seq2decLoop, Nat.ofDigits_nil]
  | cons g rest ih =>
    intro dec idx hmem
    have hg : g ∈ al := hmem g (by simp)
    simp only [seq2decLoop, mapLookup, if_pos hg]
    rw [ih _ _ (fun x hx => hmem x (by simp [hx]))]
    congr 1
    simp only [List.map_cons, Nat.ofDigits_cons, Nat.cast_id]
    ring

lemma seq2decLoop_missing (al : List Char) :
    ∀ (gs : List Char) (dec idx : Nat) (g : Char),
      gs.find? (fun c => decide (c ∉ al)) = some g →
      seq2decLoop al dec idx gs = Except.error (NewError.MissingChar (missingCharMsg g al)) := by
  intro gs
  induction gs with
  | nil =>
    intro dec idx g h
    simp at h
  | cons c rest ih =>
    intro dec idx g h
    by_cases hc : c ∈ al
    · rw [List.find?_cons_of_neg _ (by simp [hc])] at h
      simp only [seq2decLoop, mapLookup, if_pos hc]
      exact ih _ _ _ h
    · rw [List.find?_cons_of_pos _ (by simp [hc])] at h
      cases h
      simp [seq2decLoop, mapLookup, hc]

/-! ### Duplicate-scan lemmas -/

lemma firstDup_eq_none_iff :
    ∀ (l seen : List Char), firstDup seen l = none ↔ (l.Nodup ∧ ∀ a ∈ l, a ∉ seen) := by
  intro l
  induction l with
  | nil =>
    intro seen
    simp [firstDup]
  | cons c cs ih =>
    intro seen
    simp only [firstDup]
    by_cases hc : c ∈ seen
    · simp only [if_pos hc]
      constructor
      · intro h
        exact absurd h (by simp)
      · rintro ⟨-, hall⟩
        exact absurd hc (hall c (by simp))
    · rw [if_neg hc, ih (c :: seen)]
      constructor
      · rintro ⟨hnd, hall⟩
        refine ⟨List.nodup_cons.mpr ⟨fun hmem => (hall c hmem) (by simp), hnd⟩, ?_⟩
        intro a ha
        rcases List.mem_cons.mp ha with rfl | ha
        · exact hc
        · exact fun hs => (hall a ha) (by simp [hs])
      · rintro ⟨hnd, hall⟩
        obtain ⟨hnin, hnd⟩ := List.nodup_cons.mp hnd
        refine ⟨hnd, ?_⟩
        intro a ha hs
        rcases List.mem_cons.mp hs with rfl | hs
        · exact hnin ha
        · exact (hall a (by simp [ha])) hs

lemma firstDup_mem :
    ∀ (l seen : List Char) (c : Char), firstDup seen l = some c →
      c ∈ l ∧ (c ∈ seen ∨ 2 ≤ l.count c) := by
  intro l
  induction l with
  | nil =>
    intro seen c h
    simp [firstDup] at h
  | cons a tl ih =>
    intro seen c h
    simp only [firstDup] at h
    by_cases ha : a ∈ seen
    · rw [if_pos ha] at h
      cases h
      exact ⟨by simp, Or.inl ha⟩
    · rw [if_neg ha] at h
      obtain ⟨hmem, hrest⟩ := ih (a :: seen) c h
      refine ⟨by simp [hmem], ?_⟩
      rcases hrest with hseen | hcount
      · rcases List.mem_cons.mp hseen with rfl | hs
        · right
          have hpos : 0 < tl.count c := List.count_pos_iff.mpr hmem
          rw [List.count_cons_self]
          omega
        · exact Or.inl hs
      · right
        rw [List.count_cons]
        omega

/-! ### `seq2dec` path lemmas -/

lemma seq2dec_general (seq al : List Char) (h2 : 2 ≤ al.length) (hnd : al.Nodup) :
    seq2dec seq al = seq2decLoop al 0 0 seq.reverse := by
  simp only [seq2dec]
  rw [if_neg (by omega), if_neg (by rintro ⟨h, -⟩; omega),
    (firstDup_eq_none_iff al []).mpr ⟨hnd, by simp⟩]

lemma nodup_all_eq_singleton (l : List Char) (c : Char) (hnd : l.Nodup) (hc : c ∈ l)
    (hall : ∀ x ∈ l, x = c) : l = [c] := by
  cases l with
  | nil => simp at hc
  | cons a tl =>
    have ha : a = c := hall a (by simp)
    subst ha
    cases tl with
    | nil => rfl
    | cons b tb =>
      have hb : b = a := hall b (by simp)
      have : a ∉ b :: tb := (List.nodup_cons.mp hnd).1
      exact absurd (by simp [hb]) this

lemma strLen_replicate (d : Nat) (c : Char) :
    strLen (List.replicate d c) = d * c.utf8Size := by
  simp [strLen, List.map_replicate, List.sum_replicate, smul_eq_mul]

/-- Round trip on the general (base ≥ 2) path: decoding the digit string of
`d` over a duplicate-free alphabet recovers `d`. -/
lemma roundtrip_two_le (al : List Char) (hnd : al.Nodup) (h2 : 2 ≤ al.length) (d : Nat) :
    seq2dec ((Nat.digits al.length d).reverse.map (fun v => al.getD v ' ')) al =
      Except.ok d := by
  have hgd : ∀ v, ∀ hv : v < al.length, al.getD v ' ' = al.get ⟨v, hv⟩ := by
    intro v hv
    exact List.getD_eq_getElem al ' ' hv
  rw [seq2dec_general _ al h2 hnd]
  have hrev :
      ((Nat.digits al.length d).reverse.map (fun v => al.getD v ' ')).reverse =
        (Nat.digits al.length d).map (fun v => al.getD v ' ') := by
    rw [← List.map_reverse, List.reverse_reverse]
  rw [hrev, seq2decLoop_ok al _ 0 0 ?_]
  · rw [List.map_map]
    have hid :
        (Nat.digits al.length d).map ((fun g => al.indexOf g) ∘ (fun v => al.getD v ' ')) =
          (Nat.digits al.length d).map (fun v => v) := by
      apply List.map_congr_left
      intro v hv
      have hvlt : v < al.length := Nat.digits_lt_base (by omega) hv
      simp only [Function.comp_apply, hgd v hvlt]
      exact List.get_indexOf hnd _
    rw [hid, List.map_id', Nat.ofDigits_digits, pow_zero, mul_one, zero_add]
  · intro g hg
    obtain ⟨v, hv, rfl⟩ := List.mem_map.mp hg
    have hvlt : v < al.length := Nat.digits_lt_base (by omega) hv
    rw [hgd v hvlt]
    exact List.get_mem al v hvlt

/-! ### Canonical alphabet and host formatting -/

lemma canon_length : DIGITS_UPPER_AZ.length = 36 := rfl

lemma D_UAZ_LEN_eq : D_UAZ_LEN = 36 := rfl

lemma canon_getD_eq_hex (v : Nat) (hv : v < 36) :
    DIGITS_UPPER_AZ.getD v ' ' = hexUpperDigitChar v := by
  have h : ∀ w : Fin 36, DIGITS_UPPER_AZ.getD w.val ' ' = hexUpperDigitChar w.val := by decide
  exact h ⟨v, hv⟩

lemma take_canon_length (b : Nat) (hb : b ≤ 36) :
    (DIGITS_UPPER_AZ.take b).length = b := by
  rw [List.length_take, canon_length]
  omega

lemma take_canon_getD (b v : Nat) (hv : v < b) (hb : b ≤ 36) :
    (DIGITS_UPPER_AZ.take b).getD v ' ' = hexUpperDigitChar v := by
  have hvlt : v < (DIGITS_UPPER_AZ.take b).length := by
    rw [take_canon_length b hb]
    exact hv
  rw [List.getD_eq_getElem _ _ hvlt, List.getElem_take, ← canon_getD_eq_hex v (by omega),
    List.getD_eq_getElem _ _ (by rw [canon_length]; omega)]

lemma rustFormatRadix_eq_digits (radix n : Nat) (h2 : 2 ≤ radix) (hn : n ≠ 0) :
    rustFormatRadix radix n = (Nat.digits radix n).reverse.map hexUpperDigitChar := by
  simp only [rustFormatRadix, if_neg hn]
  rw [natDigitsRevF_eq_digits radix h2 n n le_rfl]

/-- The general `dec2seq` path over a prefix of the canonical alphabet produces
exactly what Rust host formatting at that radix produces. -/
lemma dec2seq_take_canon (b n : Nat) (h2 : 2 ≤ b) (hb : b ≤ 36) (hn : n ≠ 0) :
    dec2seq n (DIGITS_UPPER_AZ.take b) = some (Except.ok (rustFormatRadix b n)) := by
  have hlen : (DIGITS_UPPER_AZ.take b).length = b := take_canon_length b hb
  rw [dec2seq_two_le _ (by omega) n, rustFormatRadix_eq_digits b n h2 hn, hlen]
  have hmap :
      (Nat.digits b n).reverse.map (fun v => (DIGITS_UPPER_AZ.take b).getD v ' ') =
        (Nat.digits b n).reverse.map hexUpperDigitChar := by
    apply List.map_congr_left
    intro v hv
    have hvb : v < b := Nat.digits_lt_base (by omega) (List.mem_reverse.mp hv)
    exact take_canon_getD b v hvb hb
  rw [hmap]

/-- Every run of the decode loop ends in a value or a `MissingChar` error. -/
lemma seq2decLoop_ok_or_missing (al : List Char) :
    ∀ (gs : List Char) (dec idx : Nat),
      (∃ n, seq2decLoop al dec idx gs = Except.ok n) ∨
      (∃ t, seq2decLoop al dec idx gs = Except.error (NewError.MissingChar t)) := by
  intro gs
  induction gs with
  | nil =>
    intro dec idx
    exact Or.inl ⟨dec, rfl⟩
  | cons g rest ih =>
    intro dec idx
    by_cases hg : g ∈ al
    · simp only [seq2decLoop, mapLookup, if_pos hg]
      exact ih _ _
    · right
      exact ⟨missingCharMsg g al, by simp [seq2decLoop, mapLookup, hg]⟩

lemma switch_ok_of_in_range (d b : Nat) (h2 : 2 ≤ b) (h36 : b ≤ 36) :
    ∃ s, switch_dec_base d b = some (Except.ok s) := by
  simp only [switch_dec_base]
  rw [if_neg (by omega), if_neg (by rw [D_UAZ_LEN_eq]; omega)]
  by_cases hd : d = 0
  · rw [if_pos hd]
    exact ⟨['0'], rfl⟩
  · rw [if_neg hd]
    by_cases hb2 : b = 2
    · rw [if_pos hb2]; exact ⟨_, rfl⟩
    rw [if_neg hb2]
    by_cases hb8 : b = 8
    · rw [if_pos hb8]; exact ⟨_, rfl⟩
    rw [if_neg hb8]
    by_cases hb10 : b = 10
    · rw [if_pos hb10]; exact ⟨_, rfl⟩
    rw [if_neg hb10]
    by_cases hb16 : b = 16
    · rw [if_pos hb16]; exact ⟨_, rfl⟩
    rw [if_neg hb16]
    exact ⟨_, dec2seq_take_canon b d h2 h36 hd⟩

/-! ## The claims -/

/-- Claim C1, amended: for every alphabet with at least one symbol and no
duplicate symbols and every decimal `d ≥ 0`, the round trip
`seq2dec (dec2seq d alphabet) alphabet` returns `Ok d`, **provided** that
when the alphabet has exactly one symbol, either that symbol occupies one
UTF-8 byte or `d = 0`.  (As literally stated the claim fails: the unary
bypass of `seq2dec` returns the byte length of the sequence, see
`c1_counterexample`.) -/
theorem c1_roundtrip (al : List Char) (d : Nat) (hne : al ≠ []) (hnd : al.Nodup)
    (hcase : 2 ≤ al.length ∨ (∀ c ∈ al, c.utf8Size = 1) ∨ d = 0) :
    ∃ s, dec2seq d al = some (Except.ok s) ∧ seq2dec s al = Except.ok d := by
  have hlen : 1 ≤ al.length := by
    cases al with
    | nil => exact absurd rfl hne
    | cons a tl => simp
  by_cases h2 : 2 ≤ al.length
  · exact ⟨_, dec2seq_two_le al h2 d, roundtrip_two_le al hnd h2 d⟩
  · have h1 : al.length = 1 := by omega
    rw [dec2seq_one al h1 d]
    refine ⟨_, rfl, ?_⟩
    by_cases hd : d = 0
    · subst hd
      simp only [List.replicate_zero]
      simp only [seq2dec]
      rw [if_neg (by omega), if_neg (by rintro ⟨-, habs⟩; simp at habs),
        (firstDup_eq_none_iff al []).mpr ⟨hnd, by simp⟩]
      rfl
    · have hutf : ∀ c ∈ al, c.utf8Size = 1 := by
        rcases hcase with h | h | h
        · omega
        · exact h
        · exact absurd h hd
      have h0lt : 0 < al.length := by omega
      have hcmem : al.getD 0 ' ' ∈ al := by
        rw [List.getD_eq_getElem al ' ' h0lt]
        exact List.getElem_mem h0lt
      have hded : (List.replicate d (al.getD 0 ' ')).dedup = [al.getD 0 ' '] :=
        nodup_all_eq_singleton _ _ (List.nodup_dedup _)
          (List.mem_dedup.mpr (List.mem_replicate.mpr ⟨hd, rfl⟩))
          (fun x hx => List.eq_of_mem_replicate (List.mem_dedup.mp hx))
      simp only [seq2dec]
      rw [if_neg (by omega), if_pos ⟨h1, by rw [hded]; rfl⟩, strLen_replicate,
        hutf _ hcmem, mul_one]

/-- Claim C1 fails as literally stated: over the duplicate-free one-symbol
alphabet `['★']` and `d = 1`, the round trip returns `Ok 3` (the UTF-8 byte
length of `"★"`), not `Ok 1`. -/
theorem c1_counterexample :
    (['★'] : List Char).Nodup ∧
    dec2seq 1 ['★'] = some (Except.ok ['★']) ∧
    seq2dec ['★'] ['★'] = Except.ok 3 ∧
    seq2dec ['★'] ['★'] ≠ Except.ok 1 := by decide

/-- Witness for `c1_roundtrip` at `alphabet = ['0','1']`, `d = 10`. -/
theorem c1_witness :
    ∃ s, dec2seq 10 ['0', '1'] = some (Except.ok s) ∧ seq2dec s ['0', '1'] = Except.ok 10 :=
  c1_roundtrip ['0', '1'] 10 (by decide) (by decide) (Or.inl (by decide))

/-- Claim C2, amended: for a one-symbol alphabet and a sequence all of whose
symbols are identical (membership of that symbol in the alphabet is not
required), `seq2dec` returns `Ok` of the **UTF-8 byte length** of the
sequence — not its number of symbols, see `c2_counterexample`.  The bypass
precedes duplicate validation and the decode loop. -/
theorem c2_unary_bypass (seq al : List Char) (h1 : al.length = 1)
    (hc : ∃ c, c ∈ seq ∧ ∀ x ∈ seq, x = c) :
    seq2dec seq al = Except.ok (strLen seq) := by
  obtain ⟨c, hcm, hall⟩ := hc
  have hded : seq.dedup = [c] :=
    nodup_all_eq_singleton _ c (List.nodup_dedup seq) (List.mem_dedup.mpr hcm)
      (fun x hx => hall x (List.mem_dedup.mp hx))
  simp only [seq2dec]
  rw [if_neg (by omega), if_pos ⟨h1, by rw [hded]; rfl⟩]

/-- Claim C2 fails as literally stated: `"★★"` over the alphabet `['x']`
decodes to `Ok 6` (its UTF-8 byte length), not `Ok 2` (its number of
symbols). -/
theorem c2_counterexample :
    seq2dec ['★', '★'] ['x'] = Except.ok 6 ∧
    seq2dec ['★', '★'] ['x'] ≠ Except.ok (['★', '★'] : List Char).length := by decide

/-- Witness for `c2_unary_bypass`: `"aa"` over `['b']` (note `'a' ∉ ['b']`)
returns `Ok 2`. -/
theorem c2_witness : seq2dec ['a', 'a'] ['b'] = Except.ok (strLen ['a', 'a']) :=
  c2_unary_bypass ['a', 'a'] ['b'] (by decide) ⟨'a', by decide, by decide⟩

/-- Claim C3: for every non-empty alphabet `dec2seq` succeeds; a one-symbol
alphabet yields the symbol repeated `d` times; an alphabet of length ≥ 2
yields the big-endian positional representation (digit value `v` rendered
as the symbol at position `v`), empty for `d = 0` and with a non-zero
leading digit value otherwise. -/
theorem c3_dec2seq_total (al : List Char) (d : Nat) (hne : al ≠ []) :
    (∃ s, dec2seq d al = some (Except.ok s)) ∧
    (al.length = 1 → dec2seq d al = some (Except.ok (List.replicate d (al.getD 0 ' ')))) ∧
    (2 ≤ al.length →
      dec2seq d al =
        some (Except.ok ((Nat.digits al.length d).reverse.map (fun v => al.getD v ' '))) ∧
      (d = 0 → dec2seq d al = some (Except.ok [])) ∧
      (d ≠ 0 → (Nat.digits al.length d).getLast? ≠ some 0)) := by
  have hlen : 1 ≤ al.length := by
    cases al with
    | nil => exact absurd rfl hne
    | cons a tl => simp
  refine ⟨?_, fun h1 => dec2seq_one al h1 d, fun h2 => ⟨dec2seq_two_le al h2 d, ?_, ?_⟩⟩
  · by_cases h2 : 2 ≤ al.length
    · exact ⟨_, dec2seq_two_le al h2 d⟩
    · exact ⟨_, dec2seq_one al (by omega) d⟩
  · rintro rfl
    rw [dec2seq_two_le al h2 0]
    simp
  · intro hd
    have hne2 : Nat.digits al.length d ≠ [] := Nat.digits_ne_nil_iff_ne_zero.mpr hd
    rw [List.getLast?_eq_getLast _ hne2]
    intro habs
    exact Nat.getLast_digit_ne_zero al.length hd (Option.some_injective _ habs)

/-- Witness for `c3_dec2seq_total` at `alphabet = ['A','B']`, `d = 10`. -/
theorem c3_witness :
    (∃ s, dec2seq 10 ['A', 'B'] = some (Except.ok s)) ∧
    ((['A', 'B'] : List Char).length = 1 →
      dec2seq 10 ['A', 'B'] =
        some (Except.ok (List.replicate 10 ((['A', 'B'] : List Char).getD 0 ' ')))) ∧
    (2 ≤ (['A', 'B'] : List Char).length →
      dec2seq 10 ['A', 'B'] =
        some (Except.ok
          ((Nat.digits (['A', 'B'] : List Char).length 10).reverse.map
            (fun v => (['A', 'B'] : List Char).getD v ' '))) ∧
      (10 = 0 → dec2seq 10 ['A', 'B'] = some (Except.ok [])) ∧
      (10 ≠ 0 → (Nat.digits (['A', 'B'] : List Char).length 10).getLast? ≠ some 0)) :=
  c3_dec2seq_total ['A', 'B'] 10 (by decide)

/-- Claim C4: with a duplicate-free alphabet of length ≥ 2, `seq2dec`
returns the positional value (sum over positions from the right of
digit value times base to the position) when every symbol of the sequence
is in the alphabet, and otherwise fails with `MissingChar` naming an
offending symbol and the full alphabet. -/
theorem c4_general_decode (al seq : List Char) (h2 : 2 ≤ al.length) (hnd : al.Nodup) :
    ((∀ c ∈ seq, c ∈ al) →
      seq2dec seq al =
        Except.ok (Nat.ofDigits al.length (seq.reverse.map (fun g => al.indexOf g)))) ∧
    ((∃ c ∈ seq, c ∉ al) →
      ∃ g, g ∈ seq ∧ g ∉ al ∧
        seq2dec seq al = Except.error (NewError.MissingChar (missingCharMsg g al))) := by
  constructor
  · intro hmem
    rw [seq2dec_general seq al h2 hnd,
      seq2decLoop_ok al seq.reverse 0 0 (fun g hg => hmem g (List.mem_reverse.mp hg)),
      pow_zero, mul_one, zero_add]
  · rintro ⟨c, hcs, hcal⟩
    obtain ⟨g, hg⟩ : ∃ g, seq.reverse.find? (fun x => decide (x ∉ al)) = some g := by
      have hsome : (seq.reverse.find? (fun x => decide (x ∉ al))).isSome := by
        rw [List.find?_isSome]
        exact ⟨c, List.mem_reverse.mpr hcs, by simpa using hcal⟩
      exact Option.isSome_iff_exists.mp hsome
    have hgmem : g ∈ seq := List.mem_reverse.mp (List.mem_of_find?_eq_some hg)
    have hgnal : g ∉ al := by simpa using List.find?_some hg
    refine ⟨g, hgmem, hgnal, ?_⟩
    rw [seq2dec_general seq al h2 hnd]
    exact seq2decLoop_missing al seq.reverse 0 0 g hg

/-- Witness for `c4_general_decode`: `"BABA"` over `['A','B']` decodes to
`Ok 10`, and `"20"` over `['0','1']` hits `MissingChar`. -/
theorem c4_witness :
    seq2dec ['B', 'A', 'B', 'A'] ['A', 'B'] =
      Except.ok
        (Nat.ofDigits (['A', 'B'] : List Char).length
          ((['B', 'A', 'B', 'A'] : List Char).reverse.map
            (fun g => (['A', 'B'] : List Char).indexOf g))) ∧
    ∃ g, g ∈ (['2', '0'] : List Char) ∧ g ∉ (['0', '1'] : List Char) ∧
      seq2dec ['2', '0'] ['0', '1'] =
        Except.error (NewError.MissingChar (missingCharMsg g ['0', '1'])) :=
  ⟨(c4_general_decode ['A', 'B'] ['B', 'A', 'B', 'A'] (by decide) (by decide)).1 (by decide),
   (c4_general_decode ['0', '1'] ['2', '0'] (by decide) (by decide)).2 ⟨'2', by decide, by decide⟩⟩

/-- Claim C5: for `decimal > 0` and base 2, 8, 10 or 16, the host-native
fast-formatting path of `switch_dec_base` (modelled by `rustFormatRadix`,
uppercase hex digits included) produces exactly what the general path
`dec2seq` over the first `base` canonical symbols produces. -/
theorem c5_fast_format (d b : Nat) (hb : b = 2 ∨ b = 8 ∨ b = 10 ∨ b = 16) (hd : 0 < d) :
    switch_dec_base d b = some (Except.ok (rustFormatRadix b d)) ∧
    dec2seq d (DIGITS_UPPER_AZ.take b) = some (Except.ok (rustFormatRadix b d)) := by
  have h2 : 2 ≤ b := by rcases hb with rfl | rfl | rfl | rfl <;> omega
  have h36 : b ≤ 36 := by rcases hb with rfl | rfl | rfl | rfl <;> omega
  refine ⟨?_, dec2seq_take_canon b d h2 h36 (by omega)⟩
  rcases hb with rfl | rfl | rfl | rfl <;>
    simp [switch_dec_base, D_UAZ_LEN_eq, Nat.pos_iff_ne_zero.mp hd]

/-- Witness for `c5_fast_format` at `d = 10`, `b = 16`. -/
theorem c5_witness :
    switch_dec_base 10 16 = some (Except.ok (rustFormatRadix 16 10)) ∧
    dec2seq 10 (DIGITS_UPPER_AZ.take 16) = some (Except.ok (rustFormatRadix 16 10)) :=
  c5_fast_format 10 16 (by omega) (by omega)

/-- Claim C6: `switch_dec_base` fails with `BaseTooSmall` (message stating
the minimum 2 and the given base) exactly when `base < 2`, and with
`BaseTooBig` (message stating the maximum 36 and the given base) exactly
when `base > 36`, for every decimal. -/
theorem c6_base_range_errors (d b : Nat) :
    (switch_dec_base d b = some (Except.error (NewError.BaseTooSmall (baseTooSmallMsg b))) ↔
      b < 2) ∧
    (switch_dec_base d b = some (Except.error (NewError.BaseTooBig (baseTooBigMsg b))) ↔
      36 < b) := by
  by_cases hsmall : b < 2
  · have hres : switch_dec_base d b =
        some (Except.error (NewError.BaseTooSmall (baseTooSmallMsg b))) := by
      simp [switch_dec_base, hsmall]
    rw [hres]
    constructor
    · exact ⟨fun _ => hsmall, fun _ => rfl⟩
    · constructor
      · intro h
        exact absurd (Option.some_injective _ h) (by simp)
      · intro h
        omega
  · by_cases hbig : 36 < b
    · have hres : switch_dec_base d b =
          some (Except.error (NewError.BaseTooBig (baseTooBigMsg b))) := by
        rw [switch_dec_base, if_neg hsmall, if_pos (by rw [D_UAZ_LEN_eq]; omega)]
      rw [hres]
      constructor
      · constructor
        · intro h
          exact absurd (Option.some_injective _ h) (by simp)
        · intro h
          omega
      · exact ⟨fun _ => hbig, fun _ => rfl⟩
    · obtain ⟨s, hs⟩ := switch_ok_of_in_range d b (by omega) (by omega)
      rw [hs]
      constructor
      · constructor
        · intro h
          exact absurd (Option.some_injective _ h) (by simp)
        · intro h
          omega
      · constructor
        · intro h
          exact absurd (Option.some_injective _ h) (by simp)
        · intro h
          omega

/-- Claim C7: for every base in `[2, 36]`, `switch_dec_base 0 base` returns
`Ok "0"`, a single-symbol sequence; `dec2seq`, by contrast, renders zero as
the empty sequence on the same alphabet, so the `"0"` comes from
`switch_dec_base`'s own short-circuit. -/
theorem c7_zero_short_circuit (b : Nat) (h2 : 2 ≤ b) (h36 : b ≤ 36) :
    switch_dec_base 0 b = some (Except.ok ['0']) ∧
    dec2seq 0 (DIGITS_UPPER_AZ.take b) = some (Except.ok []) := by
  constructor
  · rw [switch_dec_base, if_neg (by omega), if_neg (by rw [D_UAZ_LEN_eq]; omega), if_pos rfl]
  · rw [dec2seq_two_le _ (by rw [take_canon_length b h36]; omega) 0]
    simp

/-- Witness for `c7_zero_short_circuit` at `base = 7`. -/
theorem c7_witness :
    switch_dec_base 0 7 = some (Except.ok ['0']) ∧
    dec2seq 0 (DIGITS_UPPER_AZ.take 7) = some (Except.ok []) :=
  c7_zero_short_circuit 7 (by omega) (by omega)

/-- Claim C8: for every alphabet containing a repeated symbol, `seq2dec`
fails with `MultipleChar` naming the duplicated symbol and the full
alphabet, for **every** sequence alike (the failure happens before any
symbol of the sequence is consumed; the unary bypass cannot fire because a
duplicated alphabet has at least two symbols). -/
theorem c8_duplicate_alphabet (al : List Char) (hdup : ¬ al.Nodup) :
    ∃ c, c ∈ al ∧ 2 ≤ al.count c ∧
      ∀ seq : List Char,
        seq2dec seq al = Except.error (NewError.MultipleChar (multipleCharMsg c al)) := by
  have hlen2 : 2 ≤ al.length := by
    match al with
    | [] => exact absurd List.nodup_nil hdup
    | [a] => exact absurd (List.nodup_singleton a) hdup
    | a :: b :: tl => simp [List.length_cons]
  obtain ⟨c, hc⟩ : ∃ c, firstDup [] al = some c := by
    cases h : firstDup [] al with
    | none => exact absurd ((firstDup_eq_none_iff al []).mp h).1 hdup
    | some c => exact ⟨c, rfl⟩
  obtain ⟨hmem, hrest⟩ := firstDup_mem al [] c hc
  have hcount : 2 ≤ al.count c := by
    rcases hrest with h | h
    · simp at h
    · exact h
  refine ⟨c, hmem, hcount, fun seq => ?_⟩
  simp only [seq2dec]
  rw [if_neg (by omega), if_neg (by rintro ⟨h, -⟩; omega), hc]

/-- Witness for `c8_duplicate_alphabet` at `alphabet = ['A','A']`. -/
theorem c8_witness :
    ∃ c, c ∈ (['A', 'A'] : List Char) ∧ 2 ≤ (['A', 'A'] : List Char).count c ∧
      ∀ seq : List Char,
        seq2dec seq ['A', 'A'] =
          Except.error (NewError.MultipleChar (multipleCharMsg c ['A', 'A'])) :=
  c8_duplicate_alphabet ['A', 'A'] (by decide)

/-- Claim C9: `seq2dec` fails with `DictEmpty` exactly when its alphabet is
empty, and `dec2seq` fails with `DictEmpty` exactly when its alphabet is
empty, for every sequence and decimal. -/
theorem c9_dict_empty (seq al : List Char) (d : Nat) :
    (seq2dec seq al = Except.error NewError.DictEmpty ↔ al = []) ∧
    (dec2seq d al = some (Except.error NewError.DictEmpty) ↔ al = []) := by
  constructor
  · constructor
    · intro h
      by_contra hne
      have hlen : ¬ al.length = 0 := by simpa using hne
      revert h
      simp only [seq2dec]
      rw [if_neg hlen]
      by_cases hbp : al.length = 1 ∧ seq.dedup.length = 1
      · rw [if_pos hbp]
        simp
      · rw [if_neg hbp]
        cases hfd : firstDup [] al with
        | some c => simp
        | none =>
          rcases seq2decLoop_ok_or_missing al seq.reverse 0 0 with ⟨n, hn⟩ | ⟨t, ht⟩
          · rw [hn]; simp
          · rw [ht]; simp
    · rintro rfl
      simp [seq2dec]
  · constructor
    · intro h
      by_contra hne
      have hlen : ¬ al.length = 0 := by simpa using hne
      revert h
      simp only [dec2seq]
      rw [if_neg hlen]
      by_cases h1 : al.length = 1
      · rw [if_pos h1]
        simp
      · rw [if_neg h1, dec2seqLoopF_eq_digits al (by omega) d d le_rfl]
        simp
    · rintro rfl
      simp [dec2seq]

/-- Claim C10: on the general path of `dec2seq` (alphabet length ≥ 2) the
symbol lookup at index `decimal % base` always succeeds, so the
`unreachable!()` branch (the `none` outcome of `dec2seqLoopF`) is never
executed: the loop always returns the digit string. -/
theorem c10_no_unreachable (al : List Char) (h2 : 2 ≤ al.length) :
    (∀ d : Nat, ∃ g, al.get? (d % al.length) = some g) ∧
    (∀ d : Nat,
      dec2seqLoopF al d d =
        some ((Nat.digits al.length d).reverse.map (fun v => al.getD v ' '))) := by
  constructor
  · intro d
    have hlt : d % al.length < al.length := Nat.mod_lt _ (by omega)
    exact ⟨_, List.get?_eq_get hlt⟩
  · intro d
    exact dec2seqLoopF_eq_digits al h2 d d le_rfl

/-- Witness for `c10_no_unreachable` at `alphabet = ['0','1']`, `d = 5`. -/
theorem c10_witness :
    (∃ g, (['0', '1'] : List Char).get? (5 % (['0', '1'] : List Char).length) = some g) ∧
    dec2seqLoopF ['0', '1'] 5 5 =
      some ((Nat.digits (['0', '1'] : List Char).length 5).reverse.map
        (fun v => (['0', '1'] : List Char).getD v ' ')) :=
  ⟨(c10_no_unreachable ['0', '1'] (by decide)).1 5,
   (c10_no_unreachable ['0', '1'] (by decide)).2 5⟩

end Numsys
